import Mathlib

/-!
# Verification of the amplifier-bundle-idd modules

Shallow embedding of the IDD parser (`tool-idd/parser.py`), grammar models
(`tool-idd/grammar.py`), compiler (`tool-idd/compiler.py`), confirmation
gate (`hooks-idd-confirmation/__init__.py`) and the orchestrator step loop
(`orchestrator-idd/__init__.py`), together with theorems settling the
behavioural claims about them.

Python strings are modelled as Lean `String` (slicing `s[:n]` is by code
point, matching `String`/`List Char` truncation).  Python `re` searches are
modelled over ASCII: `\s` is the ASCII whitespace class, `\w` the ASCII
word class, and `re.IGNORECASE` is character-wise ASCII lowercasing.
-/

namespace IDD

/-! ## Python string primitives -/

/-- ASCII model of Python's whitespace class (`str.strip`, regex `\s`). -/
def pyIsSpace (c : Char) : Bool :=
  c = ' ' || c = '\t' || c = '\n' || c = '\r' || c = '\x0b' || c = '\x0c'

/-- Embeds `str.lstrip()` on the underlying character list. -/
def pyLStrip (l : List Char) : List Char := l.dropWhile pyIsSpace

/-- Embeds `str.rstrip()` on the underlying character list. -/
def pyRStrip (l : List Char) : List Char := (l.reverse.dropWhile pyIsSpace).reverse

/-- Python `str.strip()` (no arguments: strips whitespace from both ends). -/
def pyStrip (s : String) : String := ⟨pyRStrip (pyLStrip s.data)⟩

/-- Python slicing `s[:n]` (by code point). -/
def pyTake (s : String) (n : Nat) : String := ⟨s.data.take n⟩

/-- Python `str.lower()` (ASCII model). -/
def pyLower (s : String) : String := ⟨s.data.map Char.toLower⟩

theorem pyTake_length (s : String) (n : Nat) : (pyTake s n).length ≤ n := by
  show (s.data.take n).length ≤ n
  rw [List.length_take]
  omega

/-! ## Decimal rendering of integers (Python `str(int)`) -/

/-- One decimal digit character (`n < 10` in every use). -/
def digitCh (n : Nat) : Char :=
  match n with
  | 0 => '0' | 1 => '1' | 2 => '2' | 3 => '3' | 4 => '4'
  | 5 => '5' | 6 => '6' | 7 => '7' | 8 => '8' | _ => '9'

/-- Value of a decimal digit character. -/
def digitVal (c : Char) : Nat :=
  match c with
  | '0' => 0 | '1' => 1 | '2' => 2 | '3' => 3 | '4' => 4
  | '5' => 5 | '6' => 6 | '7' => 7 | '8' => 8 | _ => 9

/-- Decimal digit characters of a natural number, most significant first. -/
def natDigits (n : Nat) : List Char :=
  if h : n < 10 then [digitCh n]
  else natDigits (n / 10) ++ [digitCh (n % 10)]
  termination_by n
  decreasing_by
    exact Nat.div_lt_self (by omega) (by omega)

/-- Python `str(n)` for a non-negative integer. -/
def natToStr (n : Nat) : String := ⟨natDigits n⟩

/-- Python `str(i)` for an integer. -/
def intToStr (i : Int) : String :=
  if i < 0 then "-" ++ natToStr i.natAbs else natToStr i.natAbs

/-- Decimal value of a digit string (decoder used to prove injectivity). -/
def digitsVal (l : List Char) : Nat := l.foldl (fun acc c => acc * 10 + digitVal c) 0

theorem digitVal_digitCh (n : Nat) (h : n < 10) : digitVal (digitCh n) = n := by
  interval_cases n <;> rfl

theorem digitsVal_append_singleton (l : List Char) (c : Char) :
    digitsVal (l ++ [c]) = digitsVal l * 10 + digitVal c := by
  simp [digitsVal, List.foldl_append]

theorem digitsVal_natDigits (n : Nat) : digitsVal (natDigits n) = n := by
  induction n using Nat.strong_induction_on with
  | _ n ih =>
    by_cases h : n < 10
    · rw [natDigits, dif_pos h]
      simp [digitsVal, digitVal_digitCh n h]
    · rw [natDigits, dif_neg h, digitsVal_append_singleton,
        ih (n / 10) (Nat.div_lt_self (by omega) (by omega)),
        digitVal_digitCh (n % 10) (Nat.mod_lt _ (by omega))]
      omega

theorem natDigits_injective {m n : Nat} (h : natDigits m = natDigits n) : m = n := by
  have := digitsVal_natDigits m
  rw [h, digitsVal_natDigits] at this
  omega

theorem natDigits_no_dash (n : Nat) : ∀ c ∈ natDigits n, c ≠ '-' := by
  induction n using Nat.strong_induction_on with
  | _ n ih =>
    by_cases h : n < 10
    · rw [natDigits, dif_pos h]
      intro c hc
      interval_cases n <;> simp_all [digitCh] <;> omega
    · rw [natDigits, dif_neg h]
      intro c hc
      rcases List.mem_append.mp hc with h1 | h2
      · exact ih (n / 10) (Nat.div_lt_self (by omega) (by omega)) c h1
      · have : c = digitCh (n % 10) := by simpa using h2
        subst this
        have h10 : n % 10 < 10 := Nat.mod_lt _ (by omega)
        interval_cases h' : n % 10 <;> simp_all [digitCh] <;> omega

/-- In `x ++ d :: a = y ++ d :: b` with `d`-free `x` and `y`, the pieces agree. -/
theorem append_sep_inj {d : Char} :
    ∀ (x y a b : List Char), (∀ c ∈ x, c ≠ d) → (∀ c ∈ y, c ≠ d) →
      x ++ d :: a = y ++ d :: b → x = y ∧ a = b := by
  intro x
  induction x with
  | nil =>
    intro y a b _ hy h
    cases y with
    | nil => simpa using h
    | cons c y' =>
      simp only [List.nil_append, List.cons_append, List.cons.injEq] at h
      exact absurd h.1.symm (hy c (by simp))
  | cons c x' ih =>
    intro y a b hx hy h
    cases y with
    | nil =>
      simp only [List.nil_append, List.cons_append, List.cons.injEq] at h
      exact absurd h.1 (hx c (by simp))
    | cons c' y' =>
      simp only [List.cons_append, List.cons.injEq] at h
      obtain ⟨rfl, h2⟩ := h
      obtain ⟨h3, h4⟩ := ih y' a b (fun e he => hx e (by simp [he]))
        (fun e he => hy e (by simp [he])) h2
      exact ⟨by rw [h3], h4⟩

/-! ## JSON values

Model of the values `json.loads` can produce.  Python's `json` module
accepts the non-standard literals `NaN`, `Infinity` and `-Infinity` by
default, so floats carry the non-finite cases explicitly. -/

/-- A Python float as produced by `json.loads`. -/
inductive PyFloat where
  | nan
  | inf
  | ninf
  | val (q : ℚ)
  deriving DecidableEq, Repr

/-- A parsed JSON value (a Python object tree from `json.loads`).
Objects are association lists; duplicate keys behave as in a Python dict
built by `json.loads` (the last occurrence wins, see `jget`). -/
inductive Json where
  | null
  | bool (b : Bool)
  | int (n : Int)
  | float (f : PyFloat)
  | str (s : String)
  | arr (elems : List Json)
  | obj (kvs : List (String × Json))

/-- Python `dict.get(k)` on a JSON object dict: the value of the *last*
occurrence of `k` (matching `json.loads` duplicate-key behaviour). -/
def jget (kvs : List (String × Json)) (k : String) : Option Json :=
  match kvs with
  | [] => none
  | (k', v) :: rest => match jget rest k with
    | some w => some w
    | none => if k' = k then some v else none

/-- Embeds `data.get(k, default)` where `data` may not be a dict: Python raises
`AttributeError` on non-dicts, modelled as `Except.error`. -/
def pyDictGet (data : Json) (k : String) (default : Json) : Except String Json :=
  match data with
  | .obj kvs => .ok ((jget kvs k).getD default)
  | _ => .error "AttributeError: object has no attribute get"

/-- Python iteration `for a in v`: lists yield their elements, strings yield
one-character strings, dicts yield their keys; other values raise
`TypeError`. -/
def pyIter (v : Json) : Except String (List Json) :=
  match v with
  | .arr l => .ok l
  | .str s => .ok (s.data.map fun c => .str ⟨[c]⟩)
  | .obj kvs => .ok (kvs.map fun kv => .str kv.1)
  | _ => .error "TypeError: object is not iterable"

/-- Python truthiness of a JSON value (`if b.get("name")`, ...). -/
def pyTruthy (v : Json) : Bool :=
  match v with
  | .null => false
  | .bool b => b
  | .int n => decide (n ≠ 0)
  | .float f => match f with | .val q => decide (q ≠ 0) | _ => true
  | .str s => !s.isEmpty
  | .arr l => !l.isEmpty
  | .obj kvs => !kvs.isEmpty

/-- Whether a JSON value is the `null` literal (Python `None`). -/
def Json.isNull (v : Json) : Bool :=
  match v with
  | .null => true
  | _ => false

/-- Decimal-style rendering of a rational, standing in for Python's
shortest-round-trip `repr` of a finite float (the exact digit string of
`repr(float)` is not modelled; no claim depends on it). -/
def ratToStr (q : ℚ) : String :=
  intToStr q.num ++ "/" ++ natToStr q.den

mutual

/-- Python `str(v)` for a parsed JSON value. -/
def pyStr (v : Json) : String :=
  match v with
  | .null => "None"
  | .bool b => if b then "True" else "False"
  | .int n => intToStr n
  | .float f => match f with
    | .nan => "nan" | .inf => "inf" | .ninf => "-inf" | .val q => ratToStr q
  | .str s => s
  | .arr l => "[" ++ pyStrList l ++ "]"
  | .obj kvs => "\x7b" ++ pyStrObj kvs ++ "\x7d"
  termination_by (sizeOf v, 0)

/-- Python `repr(v)`: like `str` except strings gain quotes (escaping of
quotes inside the string is not modelled; no claim depends on it). -/
def pyRepr (v : Json) : String :=
  match v with
  | .str s => "'" ++ s ++ "'"
  | w => pyStr w
  termination_by (sizeOf v, 1)

/-- Comma-joined `repr`s of list elements. -/
def pyStrList (l : List Json) : String :=
  match l with
  | [] => ""
  | [v] => pyRepr v
  | v :: rest => pyRepr v ++ ", " ++ pyStrList rest
  termination_by (sizeOf l, 2)

/-- Comma-joined `repr`-rendered key/value pairs of a dict. -/
def pyStrObj (kvs : List (String × Json)) : String :=
  match kvs with
  | [] => ""
  | [(k, v)] => "'" ++ k ++ "': " ++ pyRepr v
  | (k, v) :: rest => "'" ++ k ++ "': " ++ pyRepr v ++ ", " ++ pyStrObj rest
  termination_by (sizeOf kvs, 2)

end

/-- Embeds `_as_str_list` (parser.py): coerce a value to a list of strings,
tolerating `None` and scalars.  A missing key and a stored JSON `null`
both reach this function as Python `None`, i.e. `Json.null` here. -/
def asStrList (value : Json) : List String :=
  match value with
  | .null => []
  | .str s => [s]
  | .arr l => (l.filter fun v => !v.isNull).map pyStr
  | _ => []

/-! ## `IDDParser._extract_json` (parser.py, lines 179-187)

The source applies `re.search(r"```(?:json)?\s*\n?(.*?)```", text, re.DOTALL)`
to the stripped text and returns the stripped capture group when the pattern
matches, the stripped text otherwise.  The regex semantics unfold as follows:
the overall pattern matches iff a literal ```` ``` ```` occurs and another
```` ``` ```` occurs at least three characters later; the match is anchored at
the *first* opening fence; after it a literal lowercase `json` is consumed if
present, then greedy `\s*` (after which `\n?` can consume nothing), and the
lazy group captures up to the *next* ```` ``` ````.  The skipped hint and
whitespace contain no backtick, so the backtracking alternatives never change
whether the match succeeds. -/

/-- The backtick character (written via its code point). -/
def btick : Char := Char.ofNat 96

/-- Split a character list at the first occurrence of a triple backtick:
returns the part before it and the part after it. -/
def splitAtFence (l : List Char) : Option (List Char × List Char) :=
  match l with
  | [] => none
  | c :: rest =>
    if c = btick ∧ rest.take 2 = [btick, btick] then some ([], rest.drop 2)
    else match splitAtFence rest with
      | some (pre, post) => some (c :: pre, post)
      | none => none

/-- The capture group of `re.search(r"```(?:json)?\s*\n?(.*?)```", ., re.DOTALL)`,
if the pattern matches. -/
def fenceGroup (l : List Char) : Option (List Char) :=
  match splitAtFence l with
  | none => none
  | some (_, afterOpen) =>
    let body := if afterOpen.take 4 = "json".data then afterOpen.drop 4 else afterOpen
    let body := body.dropWhile pyIsSpace
    match splitAtFence body with
    | none => none
    | some (group, _) => some group

/-- Embeds `IDDParser._extract_json`: strip optional markdown fences and
leading/trailing whitespace. -/
def extractJson (text : String) : String :=
  let text := pyStrip text
  match fenceGroup text.data with
  | some group => pyStrip ⟨group⟩
  | none => text

/-! ## Confidence clamping (parser.py, lines 242-245)

```python
confidence = data.get("confidence", 0.0)
if not isinstance(confidence, (int, float)):
    confidence = 0.0
confidence = max(0.0, min(1.0, float(confidence)))
```

Python's `min(1.0, x)` keeps `1.0` unless `x < 1.0` — so `nan` (every
comparison false) and `inf` yield `1.0` — and `max(0.0, y)` keeps `0.0`
unless `y > 0.0`.  `bool` is a subclass of `int`, so JSON booleans count
as numeric.  `float(int)` is modelled exactly (overflow of huge integers
to `OverflowError` is not modelled). -/

/-- Embeds `min(1.0, x)` for a possibly non-finite float: the result is `x` only
when `x < 1.0` compares true. -/
def pyMin1 (x : PyFloat) : PyFloat :=
  match x with
  | .nan => .val 1
  | .inf => .val 1
  | .ninf => .ninf
  | .val q => if q < 1 then .val q else .val 1

/-- Embeds `max(0.0, y)` after `pyMin1` (the argument is finite or `-inf`): the
result is `y` only when `y > 0.0` compares true. -/
def pyMax0 (y : PyFloat) : ℚ :=
  match y with
  | .val q => if q > 0 then q else 0
  | _ => 0

/-- Lines 242-245 of parser.py for a present `confidence` value. -/
def clampConfidence (confidence : Json) : ℚ :=
  match confidence with
  | .int n => pyMax0 (pyMin1 (.val (n : ℚ)))
  | .float f => pyMax0 (pyMin1 f)
  | .bool b => pyMax0 (pyMin1 (.val (if b then 1 else 0)))
  | _ => pyMax0 (pyMin1 (.val 0))

/-! ## Grammar data models (`tool-idd/grammar.py`)

Field types follow the dataclass annotations. -/

/-- Embeds `IntentPrimitive`: WHY — goal, success criteria, scope boundaries. -/
structure IntentPrimitive where
  goal : String
  success_criteria : List String
  scope_in : List String := []
  scope_out : List String := []
  values : List String := []
  deriving DecidableEq, Repr

/-- Embeds `TriggerPrimitive`: WHEN — activation condition and confirmation mode. -/
structure TriggerPrimitive where
  activation : String
  pre_conditions : List String := []
  confirmation : String := "auto"
  deriving DecidableEq, Repr

/-- Embeds `AgentAssignment`: WHO — a named agent with a role and instruction. -/
structure AgentAssignment where
  name : String
  role : String
  instruction : String
  deriving DecidableEq, Repr

/-- Embeds `ContextRequirement`: WHAT — context split by discovery status. -/
structure ContextRequirement where
  auto_detected : List String := []
  provided : List String := []
  to_discover : List String := []
  deriving DecidableEq, Repr

/-- Embeds `BehaviorReference`: HOW — a named behavior. -/
structure BehaviorReference where
  name : String
  deriving DecidableEq, Repr

/-- Embeds `Decomposition`: full five-primitive decomposition of a user prompt.
`confidence` is the clamped float from the parser, always finite, so a
rational suffices. -/
structure Decomposition where
  intent : IntentPrimitive
  trigger : TriggerPrimitive
  agents : List AgentAssignment
  context : ContextRequirement
  behaviors : List BehaviorReference
  raw_input : String := ""
  confidence : ℚ := 0
  deriving DecidableEq, Repr

/-- Embeds `CorrectionRecord`: a mid-flight correction to one of the primitives. -/
structure CorrectionRecord where
  timestamp : String
  primitive : String
  old_value : String
  new_value : String
  reason : String
  deriving DecidableEq, Repr

/-- Embeds `SuccessCriterionStatus`: evaluation state of one success criterion. -/
structure SuccessCriterionStatus where
  name : String
  passed : Option Bool := none
  evidence : String := ""
  deriving DecidableEq, Repr

/-- Embeds `GrammarState`: mutable state travelling with an IDD execution. -/
structure GrammarState where
  decomposition : Option Decomposition := none
  corrections : List CorrectionRecord := []
  criteria_status : List SuccessCriterionStatus := []
  steps_completed : Nat := 0
  steps_total : Nat := 0
  status : String := "pending"
  deriving DecidableEq, Repr

/-! ## `IDDParser._dict_to_decomposition` (parser.py, lines 189-255)

The source stores the raw values of `get` calls into dataclass fields
annotated `str`.  To keep the embedded `Decomposition` well-typed, a
non-string value landing in a string-annotated field is surfaced as an
error here (`expectStr`); in the source such a value is stored verbatim
and makes the first string operation on it (e.g. in the compiler) raise.
Every error in this function is caught by `parse` and turns into the
fallback decomposition, exactly like the source's `except Exception`. -/

/-- Expect a string-annotated field to hold an actual string (see the
section comment for the modelling choice on non-string values). -/
def expectStr (v : Json) : Except String String :=
  match v with
  | .str s => .ok s
  | _ => .error "non-string value in str-annotated field"

/-- Lines 194-201: build the `IntentPrimitive`. -/
def mkIntent (data : Json) (raw_input : String) : Except String IntentPrimitive := do
  let intent_d ← pyDictGet data "intent" (.obj [])
  let goal ← expectStr (← pyDictGet intent_d "goal" (.str (pyTake raw_input 200)))
  let sc ← pyDictGet intent_d "success_criteria" .null
  let si ← pyDictGet intent_d "scope_in" .null
  let so ← pyDictGet intent_d "scope_out" .null
  let vals ← pyDictGet intent_d "values" .null
  pure { goal := goal, success_criteria := asStrList sc, scope_in := asStrList si,
         scope_out := asStrList so, values := asStrList vals }

/-- Lines 203-208: build the `TriggerPrimitive`. -/
def mkTrigger (data : Json) : Except String TriggerPrimitive := do
  let trigger_d ← pyDictGet data "trigger" (.obj [])
  let activation ← expectStr (← pyDictGet trigger_d "activation" (.str "user request"))
  let pre ← pyDictGet trigger_d "pre_conditions" .null
  let confirmation ← expectStr (← pyDictGet trigger_d "confirmation" (.str "auto"))
  pure { activation := activation, pre_conditions := asStrList pre,
         confirmation := confirmation }

/-- Lines 210-227: build the agent list, defaulting to a single `self`
agent when the (filtered) list is empty. -/
def mkAgents (data : Json) (raw_input : String) : Except String (List AgentAssignment) := do
  let agentsJ ← pyDictGet data "agents" (.arr [])
  let items ← pyIter agentsJ
  let dicts := items.filterMap fun a => match a with | .obj kvs => some kvs | _ => none
  let agents ← dicts.mapM fun kvs => do
    let name ← expectStr ((jget kvs "name").getD (.str "self"))
    let role ← expectStr ((jget kvs "role").getD (.str "executor"))
    let instruction ← expectStr ((jget kvs "instruction").getD (.str ""))
    pure (AgentAssignment.mk name role instruction)
  if agents.isEmpty then
    pure [AgentAssignment.mk "self" "executor" (pyTake raw_input 500)]
  else
    pure agents

/-- Lines 229-234: build the `ContextRequirement`. -/
def mkContext (data : Json) : Except String ContextRequirement := do
  let ctx_d ← pyDictGet data "context" (.obj [])
  let ad ← pyDictGet ctx_d "auto_detected" .null
  let pv ← pyDictGet ctx_d "provided" .null
  let td ← pyDictGet ctx_d "to_discover" .null
  pure { auto_detected := asStrList ad, provided := asStrList pv,
         to_discover := asStrList td }

/-- Lines 236-240: build the behavior list (keep dicts with a truthy
`name`). -/
def mkBehaviors (data : Json) : Except String (List BehaviorReference) := do
  let behaviorsJ ← pyDictGet data "behaviors" (.arr [])
  let items ← pyIter behaviorsJ
  let dicts := items.filterMap fun b => match b with | .obj kvs => some kvs | _ => none
  let kept := dicts.filter fun kvs => pyTruthy ((jget kvs "name").getD .null)
  kept.mapM fun kvs => do
    let name ← expectStr ((jget kvs "name").getD (.str "default"))
    pure (BehaviorReference.mk name)

/-- Embeds `IDDParser._dict_to_decomposition`: safely convert a parsed value into
a `Decomposition`; any raised error is caught by `parse`. -/
def dictToDecomposition (data : Json) (raw_input : String) : Except String Decomposition := do
  let intent ← mkIntent data raw_input
  let trigger ← mkTrigger data
  let agents ← mkAgents data raw_input
  let context ← mkContext data
  let behaviors ← mkBehaviors data
  let confJ ← pyDictGet data "confidence" (.float (.val 0))
  pure { intent := intent, trigger := trigger, agents := agents, context := context,
         behaviors := behaviors, raw_input := raw_input,
         confidence := clampConfidence confJ }

/-- Embeds `IDDParser._fallback_decomposition` (parser.py, lines 259-283). -/
def fallbackDecomposition (prompt : String) : Decomposition :=
  { intent := { goal := pyTake prompt 200,
                success_criteria := ["Task completed successfully"] },
    trigger := { activation := "user request" },
    agents := [AgentAssignment.mk "self" "executor" (pyTake prompt 500)],
    context := {},
    behaviors := [],
    raw_input := prompt,
    confidence := 0 }

/-! ## `IDDParser.parse` (parser.py, lines 98-139)

The provider call is modelled by its outcome: either it raises, or it
yields a raw response text (the source's joining of content blocks and
`None`-to-`""` coercion both produce such a text).  `json.loads` is a
library function outside the repository; it enters as the parameter
`jloads`, with `none` standing for `json.JSONDecodeError`.  The model
assumes `amplifier_core` is importable, so `_build_chat_request` succeeds
(without it the source raises `RuntimeError` before its `try` block). -/

/-- Outcome of `await provider.complete(request)` followed by the content
extraction of lines 130-135. -/
inductive ProviderOutcome where
  | raises (msg : String)
  | returns (content : String)
  deriving DecidableEq, Repr

/-- Embeds `IDDParser.parse`: decompose `prompt` via the first provider, falling
back to `fallbackDecomposition` on any failure.  `providers` lists the
provider mapping's values in order; `_pick_provider` takes the first. -/
def parse (jloads : String → Option Json) (prompt : String)
    (providers : List ProviderOutcome) (availableAgents : List String) : Decomposition :=
  match providers.head? with
  | none => fallbackDecomposition prompt
  | some (.raises _) => fallbackDecomposition prompt
  | some (.returns raw) =>
    match jloads (extractJson raw) with
    | none => fallbackDecomposition prompt
    | some data =>
      match dictToDecomposition data prompt with
      | .ok d => d
      | .error _ => fallbackDecomposition prompt

/-! ## `IDDCompiler` (tool-idd/compiler.py)

`_detect_parallelism` tests instructions against
`re.compile(r"\b(parallel|concurrent(?:ly)?|at the same time|simultaneously)\b",
re.IGNORECASE)`.  `\w` (hence `\b`) is modelled over ASCII. -/

/-- ASCII model of the regex word class `\w`. -/
def isWordChar (c : Char) : Bool := c.isAlpha || c.isDigit || c = '_'

/-- The lowercase alternatives of the parallel-marker pattern.  The
optional group `concurrent(?:ly)?` contributes two alternatives; since
only the existence of a match matters, alternation order is irrelevant. -/
def markerWords : List (List Char) :=
  ["parallel".data, "concurrent".data, "concurrently".data,
   "at the same time".data, "simultaneously".data]

/-- One keyword matches at the current position with word boundaries on
both sides (`prev` is the character just before the position, if any). -/
def markerAt (prev : Option Char) (l : List Char) (kw : List Char) : Bool :=
  (match prev with | none => true | some c => !isWordChar c) &&
  kw.isPrefixOf l &&
  (match (l.drop kw.length).head? with | none => true | some c => !isWordChar c)

/-- Scan for a marker match anywhere in an (already lowercased) text. -/
def markerScan (prev : Option Char) (l : List Char) : Bool :=
  (markerWords.any (markerAt prev l)) ||
    match l with
    | [] => false
    | c :: rest => markerScan (some c) rest

/-- Embeds `_PARALLEL_PATTERN.search(text) is not None`: case-insensitive
word-bounded search for a parallel marker. -/
def containsMarker (text : String) : Bool :=
  markerScan none (pyLower text).data

/-- Lines 196-202: the grouping test between the previous agent of the
current group (always the immediately preceding agent) and the next one. -/
def isParallelPair (prev agent : AgentAssignment) : Bool :=
  agent.name == prev.name ||
  containsMarker agent.instruction ||
  containsMarker prev.instruction

/-- The loop of `_detect_parallelism` after the first agent seeded the
current group: `cur ++ [prev]` is the Python `current_group`, with `prev`
its last element. -/
def detectAux (cur : List AgentAssignment) (prev : AgentAssignment) :
    List AgentAssignment → List (List AgentAssignment)
  | [] => [cur ++ [prev]]
  | a :: rest =>
    if isParallelPair prev a then detectAux (cur ++ [prev]) a rest
    else (cur ++ [prev]) :: detectAux [] a rest

/-- Embeds `IDDCompiler._detect_parallelism` (compiler.py, lines 161-214). -/
def detectParallelism : List AgentAssignment → List (List AgentAssignment)
  | [] => []
  | a :: rest => detectAux [] a rest

/-- Embeds `re.sub(r"[^a-z0-9]+", "-", .)`: each maximal run of characters
outside `[a-z0-9]` becomes a single dash.  `inRun` records whether the
previous character was part of such a run. -/
def slugSub (inRun : Bool) : List Char → List Char
  | [] => []
  | c :: rest =>
    if c.isLower || c.isDigit then c :: slugSub false rest
    else if inRun then slugSub true rest
    else '-' :: slugSub true rest

/-- Python `.strip("-")`. -/
def stripDashes (l : List Char) : List Char :=
  ((l.dropWhile fun c => c = '-').reverse.dropWhile fun c => c = '-').reverse

/-- Embeds `IDDCompiler._step_name` (compiler.py, lines 218-222): slugified agent
name suffixed with the running step count. -/
def stepName (agentName : String) (index : Nat) : String :=
  let slug := stripDashes (slugSub false (pyLower agentName).data)
  let slug := if slug.isEmpty then "step".data else slug
  ⟨slug⟩ ++ "-" ++ natToStr index

/-- A recipe step dict as built by `_build_step` (compiler.py, lines
116-157); keys that the source omits are `none`. -/
structure Step where
  name : String
  agent : String
  instruction : String
  depends_on : Option (List String) := none
  contextInclude : Option (List String) := none
  role : Option String := none
  deriving DecidableEq, Repr

/-- Embeds `IDDCompiler._context_refs`: template references to prior results. -/
def contextRefs (stepNames : List String) : List String :=
  stepNames.map fun name => "\x7b\x7bsteps." ++ name ++ ".result\x7d\x7d"

/-- Embeds `IDDCompiler._build_step`. -/
def buildStep (agent : AgentAssignment) (name : String) (dependsOn : List String)
    (contextIncludes : List String) : Step :=
  { name := name
    agent := agent.name
    instruction := agent.instruction
    depends_on := if dependsOn.isEmpty then none else some dependsOn
    contextInclude := if contextIncludes.isEmpty then none else some contextIncludes
    role := if agent.role.isEmpty then none else some agent.role }

/-- One group of the step-building loop of `compile` (lines 50-62): build
the steps of `group`, numbering from `count` and depending on
`prevNames`. -/
def buildGroupSteps (group : List AgentAssignment) (prevNames : List String)
    (count : Nat) : List Step :=
  match group with
  | [] => []
  | agent :: rest =>
    buildStep agent (stepName agent.name count) prevNames (contextRefs prevNames)
      :: buildGroupSteps rest prevNames (count + 1)

/-- The full step-building loop of `compile`, one group at a time. -/
def buildSteps (groups : List (List AgentAssignment)) (prevNames : List String)
    (count : Nat) : List Step :=
  match groups with
  | [] => []
  | g :: gs =>
    let steps := buildGroupSteps g prevNames count
    steps ++ buildSteps gs (steps.map Step.name) (count + steps.length)

/-- The per-group step lists of the loop (same recursion, ungrouped by
`buildSteps_eq_join`). -/
def buildStepGroups (groups : List (List AgentAssignment)) (prevNames : List String)
    (count : Nat) : List (List Step) :=
  match groups with
  | [] => []
  | g :: gs =>
    let steps := buildGroupSteps g prevNames count
    steps :: buildStepGroups gs (steps.map Step.name) (count + steps.length)

/-- The approval block attached when `trigger.confirmation == "human"`. -/
structure Approval where
  required : Bool
  message : String
  deriving DecidableEq, Repr

/-- Embeds `IDDCompiler._recipe_name`. -/
def recipeName (d : Decomposition) : String :=
  let slug := stripDashes (slugSub false (pyLower (pyTake d.intent.goal 60)).data)
  if slug.isEmpty then "idd-task" else "idd-" ++ ⟨slug⟩

/-- The recipe dict produced by `compile`; the `approval` key is `none`
exactly when the source omits it. -/
structure Recipe where
  name : String
  description : String
  steps : List Step
  approval : Option Approval := none
  metadataConfidence : ℚ := 0
  deriving DecidableEq, Repr

/-- Embeds `IDDCompiler.compile` (compiler.py, lines 28-91). -/
def compile (d : Decomposition) : Recipe :=
  let groups := detectParallelism d.agents
  let steps := buildSteps groups [] 0
  { name := recipeName d
    description := d.intent.goal
    steps := steps
    approval :=
      if d.trigger.confirmation = "human" then
        some { required := true
               message := "This recipe will: " ++ d.intent.goal ++
                 "\nPlease approve to proceed." }
      else none
    metadataConfidence := d.confidence }

/-! ## `IDDConfirmationGate.handle_confirmation_response`
(hooks-idd-confirmation/__init__.py, lines 119-200)

The handler reads `{"response": str | None, "timed_out": bool}` from the
event payload; a missing `timed_out` key defaults to `True`.  Reads of
the `idd.grammar_state` capability and the event emission are modelled by
an `Option GrammarState` in/out and an emitted-event list; the
`datetime.now` timestamp enters as the parameter `now`. -/

/-- The `idd:confirmation_response` payload; `none` fields are absent
keys (`response` also models an explicit `None`). -/
structure ConfirmPayload where
  response : Option String := none
  timed_out : Option Bool := none
  deriving DecidableEq, Repr

/-- The fields of the returned `HookResult` that the handler sets.
`userCorrection` is `data["user_correction"]`. -/
structure GateResult where
  action : String
  userCorrection : Option String := none
  reason : Option String := none
  userMessage : Option String := none
  deriving DecidableEq, Repr

/-- The module-level `_CONTINUE` result. -/
def continueResult : GateResult := { action := "continue" }

/-- An event emitted through `coordinator.hooks.emit` by the handler. -/
inductive GateEvent where
  | correction (primitive : String) (reason : String)
  deriving DecidableEq, Repr

/-- Embeds `IDDConfirmationGate._PAUSE_WORDS`. -/
def pauseWords : List String := ["pause", "stop", "wait", "hold"]

/-- The affirmative vocabulary of line 152. -/
def affirmWords : List String := ["continue", "yes", "ok", "y", "proceed", "go"]

/-- Embeds `handle_confirmation_response`: returns the hook result, the updated
grammar state (if one is published) and the events emitted. -/
def handleConfirmationResponse (data : ConfirmPayload) (gs : Option GrammarState)
    (now : String) : GateResult × Option GrammarState × List GateEvent :=
  let timedOut := data.timed_out.getD true
  match data.response with
  | none => (continueResult, gs, [])
  | some response =>
    if timedOut || response.isEmpty then (continueResult, gs, [])
    else
      let responseLower := pyLower (pyStrip response)
      if pauseWords.contains responseLower then
        ({ action := "deny"
           reason := some "User requested pause at Layer 2 confirmation gate."
           userMessage := some "Paused. Provide new direction when ready." }, gs, [])
      else if affirmWords.contains responseLower then (continueResult, gs, [])
      else
        let gs' := match gs with
          | none => none
          | some g =>
            let oldGoal := match g.decomposition with
              | some d => d.intent.goal
              | none => "(unknown)"
            some { g with corrections := g.corrections ++
              [{ timestamp := now, primitive := "intent", old_value := oldGoal,
                 new_value := pyTake response 500,
                 reason := "User direction at Layer 2 confirmation" }] }
        ({ action := "modify"
           userCorrection := some response
           reason := some ("User provided direction at Layer 2: " ++ pyTake response 200)
           userMessage := some ("Applying adjustment: " ++ pyTake response 200) },
         gs', [.correction "intent" (pyTake response 200)])

/-! ## `IDDOrchestrator.execute`, steps 7-10
(orchestrator-idd/__init__.py, lines 144-184)

The claims concern the run of a compiled recipe, i.e. the part of
`execute` after the confirmation gate resolved `"ok"` (when the gate
denies, `execute` returns before any recipe is compiled).  A call to
`_execute_step` is modelled by its outcome: the result string it returns,
or the exception it raises; `_emit_safe` swallows emission errors, so
"emitting" an event is modelled as appending it to the event list. -/

/-- Outcome of one `_execute_step` call. -/
inductive StepOutcome where
  | ok (result : String)
  | raises (msg : String)
  deriving DecidableEq, Repr

/-- Events the step loop emits. -/
inductive OrchEvent where
  | progress (step : String) (completed total : Nat)
  | intentResolved (status : String)
  deriving DecidableEq, Repr

/-- Lines 152-161: the per-step result string — the step's own result, or
the error string built from the caught exception. -/
def renderStepResult (s : Step) (o : StepOutcome) : String :=
  match o with
  | .ok r => r
  | .raises m => "[Error in step " ++ s.name ++ "]: " ++ m

/-- The `for i, step in enumerate(steps)` loop (lines 150-174): collects
the results list, threads the grammar state, and emits one progress event
per step. -/
def execLoop (outcome : Nat → StepOutcome) (total : Nat) (i : Nat) (gs : GrammarState) :
    List Step → List (String × String) × GrammarState × List OrchEvent
  | [] => ([], gs, [])
  | s :: rest =>
    let r := renderStepResult s (outcome i)
    let gs' := { gs with steps_completed := i + 1 }
    let (rs, gsf, es) := execLoop outcome total (i + 1) gs' rest
    ((s.name, r) :: rs, gsf, .progress s.name (i + 1) total :: es)

/-- Steps 7-10 of `execute`: set `steps_total` and `status`, run every
step, mark the run completed, and emit `idd:intent_resolved` with the
final status. -/
def executeCompiled (steps : List Step) (outcome : Nat → StepOutcome)
    (gs0 : GrammarState) : List (String × String) × GrammarState × List OrchEvent :=
  let gs1 := { gs0 with steps_total := steps.length, status := "executing" }
  let (results, gs2, events) := execLoop outcome steps.length 0 gs1 steps
  let gs3 := { gs2 with status := "completed" }
  (results, gs3, events ++ [.intentResolved gs3.status])

/-! ## Claim C2 — the orchestrator runs every step of a compiled recipe -/

/-- Spec-side (C2): the expected results list — one entry per step, the
step's own result or its error string. -/
def specResults (outcome : Nat → StepOutcome) (i : Nat) :
    List Step → List (String × String)
  | [] => []
  | s :: rest => (s.name, renderStepResult s (outcome i)) :: specResults outcome (i + 1) rest

/-- Spec-side (C2): the expected progress events — one per step, with
`completed` counting up from `i + 1`. -/
def specProgress (total : Nat) (i : Nat) : List Step → List OrchEvent
  | [] => []
  | s :: rest => .progress s.name (i + 1) total :: specProgress total (i + 1) rest

theorem specResults_length (outcome : Nat → StepOutcome) :
    ∀ (steps : List Step) (i : Nat), (specResults outcome i steps).length = steps.length := by
  intro steps
  induction steps with
  | nil => intro i; rfl
  | cons s rest ih => intro i; simp [specResults, ih]

theorem specProgress_length (total : Nat) :
    ∀ (steps : List Step) (i : Nat), (specProgress total i steps).length = steps.length := by
  intro steps
  induction steps with
  | nil => intro i; rfl
  | cons s rest ih => intro i; simp [specProgress, ih]

/-- The `completed` fields of the spec progress events count up by one. -/
theorem specProgress_completed (total : Nat) :
    ∀ (steps : List Step) (i : Nat),
      (specProgress total i steps).map
          (fun e => match e with | .progress _ c _ => c | .intentResolved _ => 0) =
        List.range' (i + 1) steps.length := by
  intro steps
  induction steps with
  | nil => intro i; rfl
  | cons s rest ih =>
    intro i
    simp [specProgress, List.range'_succ, ih]

theorem execLoop_eq_spec (outcome : Nat → StepOutcome) (total : Nat) :
    ∀ (steps : List Step) (i : Nat) (gs : GrammarState),
      execLoop outcome total i gs steps =
        (specResults outcome i steps,
         if steps.isEmpty then gs
         else { gs with steps_completed := i + steps.length },
         specProgress total i steps) := by
  intro steps
  induction steps with
  | nil => intro i gs; rfl
  | cons s rest ih =>
    intro i gs
    simp only [execLoop, ih, specResults, specProgress, List.isEmpty_cons]
    cases rest with
    | nil => simp [specResults, specProgress]
    | cons s' rest' =>
      have harith : i + 1 + (s' :: rest').length = i + (s :: s' :: rest').length := by
        simp only [List.length_cons]
        omega
      simp [harith]
      omega

/-- C2: for every compiled recipe, the orchestrator's step loop attempts
all `N` steps (each failure becoming that step's error-string result,
never aborting the rest), emits exactly `N` progress events whose
`completed` values are `1..N` in order, sets the final status to
`"completed"`, and emits exactly one `intent_resolved` event carrying
that status. -/
theorem orchestrator_runs_all_steps (steps : List Step) (outcome : Nat → StepOutcome)
    (gs0 : GrammarState) :
    executeCompiled steps outcome gs0 =
      (specResults outcome 0 steps,
       { gs0 with
           steps_total := steps.length
           status := "completed"
           steps_completed :=
             if steps.isEmpty then gs0.steps_completed else steps.length },
       specProgress steps.length 0 steps ++ [OrchEvent.intentResolved "completed"]) ∧
    (specResults outcome 0 steps).length = steps.length ∧
    (specProgress steps.length 0 steps).map
        (fun e => match e with | .progress _ c _ => c | .intentResolved _ => 0) =
      List.range' 1 steps.length := by
  refine ⟨?_, specResults_length outcome steps 0,
    by simpa using specProgress_completed steps.length steps 0⟩
  simp only [executeCompiled, execLoop_eq_spec]
  cases h : steps.isEmpty <;> simp_all

/-! ## Claims C4 and C9 — the confirmation gate's response handler -/

/-- The `deny` result of the handler (lines 143-149). -/
def denyResult : GateResult :=
  { action := "deny"
    reason := some "User requested pause at Layer 2 confirmation gate."
    userMessage := some "Paused. Provide new direction when ready." }

/-- The `modify` result of the handler (lines 194-200): the correction
payload carries the *full* reply. -/
def modifyResult (response : String) : GateResult :=
  { action := "modify"
    userCorrection := some response
    reason := some ("User provided direction at Layer 2: " ++ pyTake response 200)
    userMessage := some ("Applying adjustment: " ++ pyTake response 200) }

/-- The `CorrectionRecord` appended by the handler (lines 171-178): its
`reason` is a fixed string; the reply's first 500 characters go into
`new_value`. -/
def gateCorrectionRecord (g : GrammarState) (response : String) (now : String) :
    CorrectionRecord :=
  { timestamp := now
    primitive := "intent"
    old_value := match g.decomposition with
      | some d => d.intent.goal
      | none => "(unknown)"
    new_value := pyTake response 500
    reason := "User direction at Layer 2 confirmation" }

/-- C4 (amended): the response handler maps a timed-out or empty reply to
`continue` with no state change; a reply that strips and lowercases to a
pause word to `deny`; one in the affirmative vocabulary to `continue`;
and any other non-empty reply appends a `CorrectionRecord` tagged
primitive `intent` — whose `new_value` is the first 500 characters of the
reply and whose `reason` is the fixed string
`"User direction at Layer 2 confirmation"` — to the published
`GrammarState`, emits a correction event carrying the first 200
characters of the reply, and resolves `modify` with the *full* reply
attached as the correction payload. -/
theorem gate_response_mapping (response : String) (gs : Option GrammarState)
    (now : String) (hne : response.isEmpty = false) :
    (∀ r : Option String,
      handleConfirmationResponse ⟨r, some true⟩ gs now = (continueResult, gs, [])) ∧
    (handleConfirmationResponse ⟨some "", some false⟩ gs now =
      (continueResult, gs, [])) ∧
    (pauseWords.contains (pyLower (pyStrip response)) = true →
      handleConfirmationResponse ⟨some response, some false⟩ gs now = (denyResult, gs, [])) ∧
    (pauseWords.contains (pyLower (pyStrip response)) = false →
      affirmWords.contains (pyLower (pyStrip response)) = true →
      handleConfirmationResponse ⟨some response, some false⟩ gs now =
        (continueResult, gs, [])) ∧
    (pauseWords.contains (pyLower (pyStrip response)) = false →
      affirmWords.contains (pyLower (pyStrip response)) = false →
      handleConfirmationResponse ⟨some response, some false⟩ gs now =
        (modifyResult response,
         (match gs with
          | none => none
          | some g => some { g with corrections :=
              g.corrections ++ [gateCorrectionRecord g response now] }),
         [GateEvent.correction "intent" (pyTake response 200)])) := by
  refine ⟨fun r => ?_, ?_, fun hp => ?_, fun hp ha => ?_, fun hp ha => ?_⟩
  · cases r with
    | none => rfl
    | some resp => simp [handleConfirmationResponse]
  · rfl
  · have hp' : pyLower (pyStrip response) ∈ pauseWords := by simpa using hp
    simp [handleConfirmationResponse, hne, hp', denyResult]
  · have hp' : pyLower (pyStrip response) ∉ pauseWords := by simpa using hp
    have ha' : pyLower (pyStrip response) ∈ affirmWords := by simpa using ha
    simp [handleConfirmationResponse, hne, hp', ha', continueResult]
  · have hp' : pyLower (pyStrip response) ∉ pauseWords := by simpa using hp
    have ha' : pyLower (pyStrip response) ∉ affirmWords := by simpa using ha
    cases gs with
    | none => simp [handleConfirmationResponse, hne, hp', ha', modifyResult]
    | some g =>
      simp [handleConfirmationResponse, hne, hp', ha', modifyResult, gateCorrectionRecord]

set_option maxRecDepth 100000 in
/-- C4 counterexample: for the corrective reply `"use the staging db"`
the appended `CorrectionRecord` has the fixed reason string, not the
first 200 characters of the reply; and for a 501-character reply the
`modify` payload carries the full reply, not its 500-character
truncation. -/
theorem gate_correction_counterexample :
    (handleConfirmationResponse ⟨some "use the staging db", some false⟩
        (some {}) "t0").2.1 =
      some { corrections := [CorrectionRecord.mk "t0" "intent" "(unknown)"
        "use the staging db" "User direction at Layer 2 confirmation"] } ∧
    "User direction at Layer 2 confirmation" ≠ pyTake "use the staging db" 200 ∧
    (handleConfirmationResponse
        ⟨some ⟨List.replicate 501 'x'⟩, some false⟩ none "t0").1.userCorrection =
      some ⟨List.replicate 501 'x'⟩ ∧
    (⟨List.replicate 501 'x'⟩ : String) ≠ pyTake ⟨List.replicate 501 'x'⟩ 500 := by
  refine ⟨by decide, by decide, by decide, fun h => ?_⟩
  have hlen := congrArg String.length h
  rw [show ((⟨List.replicate 501 'x'⟩ : String)).length = 501 by
    simp [String.length]] at hlen
  rw [show (pyTake ⟨List.replicate 501 'x'⟩ 500).length = 500 by
    simp [String.length, pyTake]] at hlen
  omega

/-- C4 witness: a reply of `"PAUSE "` (case-insensitive pause word)
resolves `deny`. -/
theorem gate_response_mapping_witness :
    handleConfirmationResponse ⟨some "PAUSE ", some false⟩ none "t1" =
      (denyResult, none, []) :=
  (gate_response_mapping "PAUSE " none "t1" (by decide)).2.2.1 (by decide)

/-- C9: when the `idd:confirmation_response` payload lacks the
`timed_out` key, the handler treats the exchange as timed out and
resolves `continue` with no state change and no events, whatever the
response was (pause words included); `deny` or `modify` can only arise
from a payload whose `timed_out` field is explicitly `false`. -/
theorem gate_missing_timed_out_defaults_to_continue (r : Option String)
    (p : ConfirmPayload) (gs : Option GrammarState) (now : String) :
    handleConfirmationResponse ⟨r, none⟩ gs now = (continueResult, gs, []) ∧
    ((handleConfirmationResponse p gs now).1.action = "deny" ∨
      (handleConfirmationResponse p gs now).1.action = "modify" →
      p.timed_out = some false) := by
  constructor
  · cases r with
    | none => rfl
    | some resp => simp [handleConfirmationResponse]
  · intro h
    obtain ⟨r', t'⟩ := p
    match t' with
    | none =>
      exfalso
      cases r' with
      | none => simp [handleConfirmationResponse, continueResult] at h
      | some resp => simp [handleConfirmationResponse, continueResult] at h
    | some true =>
      exfalso
      cases r' with
      | none => simp [handleConfirmationResponse, continueResult] at h
      | some resp => simp [handleConfirmationResponse, continueResult] at h
    | some false => rfl

/-- C9 witness: a `pause` reply with `timed_out` absent still resolves
`continue`, and the theorem's second part applies at a payload that does
deny. -/
theorem gate_missing_timed_out_witness :
    handleConfirmationResponse ⟨some "pause", none⟩ none "t0" = (continueResult, none, []) ∧
    (⟨some "pause", some false⟩ : ConfirmPayload).timed_out = some false :=
  ⟨(gate_missing_timed_out_defaults_to_continue (some "pause")
      ⟨some "pause", some false⟩ none "t0").1,
   (gate_missing_timed_out_defaults_to_continue (some "pause")
      ⟨some "pause", some false⟩ none "t0").2 (Or.inl (by decide))⟩

/-! ## Claim C1 — `parse` never raises; every failure mode yields the
fallback decomposition -/

/-- C1: `parse` is total (it returns a `Decomposition` for every prompt,
provider list and agent list — no exception reaches the caller), and in
every failure mode — no provider, a raising provider, malformed JSON, or
a JSON value on which `_dict_to_decomposition` raises (in particular any
non-object) — it returns the fallback decomposition, whose confidence is
`0`, whose agent list is the single agent `self` with role `executor`,
and whose instruction is the prompt truncated to at most 500
characters. -/
theorem parse_never_fails (jloads : String → Option Json) (prompt : String)
    (providers : List ProviderOutcome) (agentsL : List String) :
    (providers = [] →
      parse jloads prompt providers agentsL = fallbackDecomposition prompt) ∧
    (∀ m tl, providers = .raises m :: tl →
      parse jloads prompt providers agentsL = fallbackDecomposition prompt) ∧
    (∀ raw tl, providers = .returns raw :: tl → jloads (extractJson raw) = none →
      parse jloads prompt providers agentsL = fallbackDecomposition prompt) ∧
    (∀ raw tl data e, providers = .returns raw :: tl →
      jloads (extractJson raw) = some data →
      dictToDecomposition data prompt = .error e →
      parse jloads prompt providers agentsL = fallbackDecomposition prompt) ∧
    (fallbackDecomposition prompt).confidence = 0 ∧
    (fallbackDecomposition prompt).agents =
      [AgentAssignment.mk "self" "executor" (pyTake prompt 500)] ∧
    (pyTake prompt 500).length ≤ 500 := by
  refine ⟨fun h => ?_, fun m tl h => ?_, fun raw tl h hj => ?_,
    fun raw tl data e h hj hd => ?_, rfl, rfl, pyTake_length prompt 500⟩
  · subst h; rfl
  · subst h; rfl
  · subst h; simp [parse, hj]
  · subst h; simp [parse, hj, hd]

/-- C1 witness: a raising provider yields the fallback, whose agents and
confidence are as claimed. -/
theorem parse_never_fails_witness :
    parse (fun _ => none) "deploy the app" [ProviderOutcome.raises "boom"] [] =
      fallbackDecomposition "deploy the app" ∧
    (fallbackDecomposition "deploy the app").confidence = 0 ∧
    (fallbackDecomposition "deploy the app").agents =
      [AgentAssignment.mk "self" "executor" (pyTake "deploy the app" 500)] :=
  ⟨(parse_never_fails (fun _ => none) "deploy the app"
      [ProviderOutcome.raises "boom"] []).2.1 "boom" [] rfl,
   (parse_never_fails (fun _ => none) "deploy the app"
      [ProviderOutcome.raises "boom"] []).2.2.2.2.1,
   (parse_never_fails (fun _ => none) "deploy the app"
      [ProviderOutcome.raises "boom"] []).2.2.2.2.2.1⟩

/-! ## Structure of successful `_dict_to_decomposition` runs -/

theorem except_bind_ok {α β : Type} (a : α) (f : α → Except String β) :
    (Except.ok a >>= f) = f a := rfl

theorem except_bind_error {α β : Type} (e : String) (f : α → Except String β) :
    ((Except.error e : Except String α) >>= f) = Except.error e := rfl

/-- A successful `_dict_to_decomposition` run succeeds on every component
and assembles the result from them. -/
theorem dictToDecomposition_ok_parts (data : Json) (raw : String) (d : Decomposition)
    (h : dictToDecomposition data raw = .ok d) :
    mkIntent data raw = .ok d.intent ∧
    mkTrigger data = .ok d.trigger ∧
    mkAgents data raw = .ok d.agents ∧
    mkContext data = .ok d.context ∧
    mkBehaviors data = .ok d.behaviors ∧
    d.raw_input = raw ∧
    (∃ confJ, pyDictGet data "confidence" (.float (.val 0)) = .ok confJ ∧
      d.confidence = clampConfidence confJ) := by
  rw [dictToDecomposition] at h
  cases hI : mkIntent data raw with
  | error e => rw [hI, except_bind_error] at h; exact Except.noConfusion h
  | ok intent =>
  rw [hI, except_bind_ok] at h
  cases hT : mkTrigger data with
  | error e => rw [hT, except_bind_error] at h; exact Except.noConfusion h
  | ok trigger =>
  rw [hT, except_bind_ok] at h
  cases hA : mkAgents data raw with
  | error e => rw [hA, except_bind_error] at h; exact Except.noConfusion h
  | ok agents =>
  rw [hA, except_bind_ok] at h
  cases hC : mkContext data with
  | error e => rw [hC, except_bind_error] at h; exact Except.noConfusion h
  | ok context =>
  rw [hC, except_bind_ok] at h
  cases hB : mkBehaviors data with
  | error e => rw [hB, except_bind_error] at h; exact Except.noConfusion h
  | ok behaviors =>
  rw [hB, except_bind_ok] at h
  cases hF : pyDictGet data "confidence" (.float (.val 0)) with
  | error e => rw [hF, except_bind_error] at h; exact Except.noConfusion h
  | ok confJ =>
  rw [hF, except_bind_ok] at h
  have hd : Decomposition.mk intent trigger agents context behaviors raw
      (clampConfidence confJ) = d := Except.ok.inj h
  subst hd
  exact ⟨rfl, rfl, rfl, rfl, rfl, rfl, confJ, rfl, rfl⟩

/-! ## Claim C7 — confidence clamping (corrected) -/

theorem pyMax0_pyMin1_mem (f : PyFloat) :
    0 ≤ pyMax0 (pyMin1 f) ∧ pyMax0 (pyMin1 f) ≤ 1 := by
  cases f with
  | nan => simp [pyMin1, pyMax0]
  | inf => simp [pyMin1, pyMax0]
  | ninf => simp [pyMin1, pyMax0]
  | val q =>
    by_cases hq : q < 1
    · simp only [pyMin1, if_pos hq, pyMax0]
      split_ifs <;> constructor <;> linarith
    · simp only [pyMin1, if_neg hq, pyMax0]
      split_ifs <;> constructor <;> linarith

theorem clampConfidence_mem (v : Json) :
    0 ≤ clampConfidence v ∧ clampConfidence v ≤ 1 := by
  cases v with
  | int n => exact pyMax0_pyMin1_mem _
  | float f => exact pyMax0_pyMin1_mem f
  | bool b => exact pyMax0_pyMin1_mem _
  | null => exact pyMax0_pyMin1_mem _
  | str s => exact pyMax0_pyMin1_mem _
  | arr l => exact pyMax0_pyMin1_mem _
  | obj kvs => exact pyMax0_pyMin1_mem _

/-- C7 counterexample: a `+Infinity` or `NaN` confidence produces `1.0`,
not the `0.0` the claim asserts (Python's `min(1.0, x)` keeps `1.0`
whenever `x < 1.0` compares false). -/
theorem confidence_nonfinite_counterexample :
    ((dictToDecomposition (Json.obj [("confidence", Json.float .inf)]) "p").map
        Decomposition.confidence = Except.ok 1) ∧
    ((dictToDecomposition (Json.obj [("confidence", Json.float .nan)]) "p").map
        Decomposition.confidence = Except.ok 1) ∧
    (1 : ℚ) ≠ 0 := by
  refine ⟨rfl, rfl, by norm_num⟩

/-- C7 (amended): for every parsed JSON object the returned
`Decomposition`'s confidence is a finite value in `[0.0, 1.0]`;
non-numeric inputs and `-Infinity` coerce to `0.0`, while `NaN` and
`+Infinity` clamp to `1.0`. -/
theorem confidence_clamped (data : Json) (raw : String) (d : Decomposition)
    (h : dictToDecomposition data raw = .ok d) :
    (0 ≤ d.confidence ∧ d.confidence ≤ 1) ∧
    clampConfidence (.float .nan) = 1 ∧
    clampConfidence (.float .inf) = 1 ∧
    clampConfidence (.float .ninf) = 0 ∧
    clampConfidence .null = 0 ∧
    (∀ s, clampConfidence (.str s) = 0) ∧
    (∀ l, clampConfidence (.arr l) = 0) ∧
    (∀ kvs, clampConfidence (.obj kvs) = 0) := by
  obtain ⟨-, -, -, -, -, -, confJ, -, hc⟩ := dictToDecomposition_ok_parts data raw d h
  exact ⟨hc ▸ clampConfidence_mem confJ, rfl, rfl, rfl, rfl,
    fun s => rfl, fun l => rfl, fun kvs => rfl⟩

/-- The decomposition of the object `\x7b"confidence": 0.7\x7d` with raw
input `"p"` (used by the C7 witness). -/
def confidenceWitnessDecomposition : Decomposition :=
  Decomposition.mk
    (IntentPrimitive.mk (pyTake "p" 200) [] [] [] [])
    (TriggerPrimitive.mk "user request" [] "auto")
    [AgentAssignment.mk "self" "executor" (pyTake "p" 500)]
    (ContextRequirement.mk [] [] [])
    []
    "p"
    (clampConfidence (Json.float (PyFloat.val (7 / 10))))

/-- C7 witness: a confidence of `0.7` parses through and lies within
bounds. -/
theorem confidence_clamped_witness :
    0 ≤ confidenceWitnessDecomposition.confidence ∧
      confidenceWitnessDecomposition.confidence ≤ 1 :=
  (confidence_clamped (Json.obj [("confidence", Json.float (.val (7 / 10)))]) "p"
    confidenceWitnessDecomposition (by rfl)).1

/-! ## Claim C3 — confirmation handling (corrected)

Lines 203-208 of parser.py read
`confirmation=trigger_d.get("confirmation", "auto")`: the value passes
through verbatim; no normalisation to `human` exists anywhere in the
parser or compiler. -/

/-- C3 counterexample: a present confirmation value `"yes"` stays
`"yes"`; it does not resolve to `"human"`. -/
theorem confirmation_counterexample :
    ((dictToDecomposition
        (Json.obj [("trigger", Json.obj [("confirmation", Json.str "yes")])]) "p").map
      (fun d => d.trigger.confirmation) = Except.ok "yes") ∧
    ("yes" : String) ≠ "human" :=
  ⟨rfl, by decide⟩

/-- C3 (amended): for every parsed JSON object, a present string
confirmation value passes through to the returned `Decomposition`
verbatim — whether or not it is one of `auto`, `human`, `none` — and a
wholly missing confirmation key defaults to `"auto"`. -/
theorem confirmation_passthrough (data : Json) (raw : String) (d : Decomposition)
    (tkvs : List (String × Json))
    (h : dictToDecomposition data raw = .ok d)
    (ht : pyDictGet data "trigger" (.obj []) = .ok (.obj tkvs)) :
    (∀ s, jget tkvs "confirmation" = some (.str s) → d.trigger.confirmation = s) ∧
    (jget tkvs "confirmation" = none → d.trigger.confirmation = "auto") := by
  obtain ⟨-, hT, -⟩ := dictToDecomposition_ok_parts data raw d h
  rw [mkTrigger, ht, except_bind_ok] at hT
  rw [show pyDictGet (Json.obj tkvs) "activation" (.str "user request") =
    Except.ok ((jget tkvs "activation").getD (.str "user request")) from rfl,
    except_bind_ok] at hT
  cases hA : expectStr ((jget tkvs "activation").getD (.str "user request")) with
  | error e => rw [hA, except_bind_error] at hT; exact absurd hT (by simp)
  | ok act =>
    rw [hA, except_bind_ok] at hT
    rw [show pyDictGet (Json.obj tkvs) "pre_conditions" Json.null =
      Except.ok ((jget tkvs "pre_conditions").getD Json.null) from rfl,
      except_bind_ok] at hT
    rw [show pyDictGet (Json.obj tkvs) "confirmation" (.str "auto") =
      Except.ok ((jget tkvs "confirmation").getD (.str "auto")) from rfl,
      except_bind_ok] at hT
    constructor
    · intro s hs
      rw [hs] at hT
      rw [show expectStr ((some (Json.str s)).getD (Json.str "auto")) =
        Except.ok s from rfl, except_bind_ok] at hT
      have hmk := Except.ok.inj hT
      rw [← hmk]
    · intro hs
      rw [hs] at hT
      rw [show expectStr ((none : Option Json).getD (Json.str "auto")) =
        Except.ok "auto" from rfl, except_bind_ok] at hT
      have hmk := Except.ok.inj hT
      rw [← hmk]

/-- The decomposition of `\x7b"trigger": \x7b"confirmation": "none"\x7d\x7d`
with raw input `"p"` (used by the C3 witness). -/
def confirmationWitnessDecomposition : Decomposition :=
  Decomposition.mk
    (IntentPrimitive.mk (pyTake "p" 200) [] [] [] [])
    (TriggerPrimitive.mk "user request" [] "none")
    [AgentAssignment.mk "self" "executor" (pyTake "p" 500)]
    (ContextRequirement.mk [] [] [])
    []
    "p"
    (clampConfidence (Json.float (PyFloat.val 0)))

/-- C3 witness: a present `"none"` passes through verbatim. -/
theorem confirmation_passthrough_witness :
    confirmationWitnessDecomposition.trigger.confirmation = "none" :=
  (confirmation_passthrough
    (Json.obj [("trigger", Json.obj [("confirmation", Json.str "none")])]) "p"
    confirmationWitnessDecomposition [("confirmation", Json.str "none")]
    (by rfl) (by rfl)).1 "none" (by rfl)

/-! ## Claim C8 — approval block iff `confirmation == "human"` -/

/-- C8: the compiled recipe carries an approval block — with
`required = true` and a message containing the intent goal — exactly
when `trigger.confirmation` equals `"human"`; for any other value the
`approval` key is absent (`none`), not merely empty. -/
theorem approval_iff_human (d : Decomposition) :
    ((compile d).approval.isSome ↔ d.trigger.confirmation = "human") ∧
    (∀ ap, (compile d).approval = some ap → ap.required = true ∧
      ∃ p q, ap.message = p ++ d.intent.goal ++ q) := by
  by_cases hc : d.trigger.confirmation = "human"
  · refine ⟨by simp [compile, hc], fun ap hap => ?_⟩
    simp only [compile, hc, if_pos] at hap
    obtain rfl := Option.some.inj hap.symm
    exact ⟨rfl, "This recipe will: ", "\nPlease approve to proceed.", rfl⟩
  · refine ⟨by simp [compile, hc], fun ap hap => ?_⟩
    simp [compile, hc] at hap

/-- The human-confirmation decomposition used by the C8 witness. -/
def approvalWitnessDecomposition : Decomposition :=
  Decomposition.mk
    (IntentPrimitive.mk "ship" [] [] [] [])
    (TriggerPrimitive.mk "user request" [] "human")
    []
    (ContextRequirement.mk [] [] [])
    []
    ""
    0

/-- C8 witness: with `confirmation = "human"` the approval block is
present, required, and names the goal. -/
theorem approval_iff_human_witness :
    (Approval.mk true "This recipe will: ship\nPlease approve to proceed.").required
        = true ∧
      ∃ p q, (Approval.mk true
        "This recipe will: ship\nPlease approve to proceed.").message =
          p ++ "ship" ++ q :=
  (approval_iff_human approvalWitnessDecomposition).2 _ (by rfl)

/-! ## Claims C5 and C10 — parallel grouping and step naming -/

/-- Seeding the current group with `cur` only prepends `cur` to the first
group the loop produces. -/
theorem detectAux_shift (l : List AgentAssignment) :
    ∀ (cur : List AgentAssignment) (prev : AgentAssignment),
      ∃ g gs, detectAux [] prev l = g :: gs ∧ detectAux cur prev l = (cur ++ g) :: gs := by
  induction l with
  | nil => exact fun cur prev => ⟨[prev], [], rfl, by simp [detectAux]⟩
  | cons a rest ih =>
    intro cur prev
    by_cases hp : isParallelPair prev a
    · obtain ⟨g, gs, h1, h2⟩ := ih [prev] a
      obtain ⟨g2, gs2, h3, h4⟩ := ih (cur ++ [prev]) a
      have hcons := h3.symm.trans h1
      rw [(List.cons.inj hcons).1, (List.cons.inj hcons).2] at h4
      refine ⟨prev :: g, gs, ?_, ?_⟩
      · show detectAux [] prev (a :: rest) = (prev :: g) :: gs
        simp [detectAux, hp]
        simpa using h2
      · show detectAux cur prev (a :: rest) = (cur ++ prev :: g) :: gs
        simp [detectAux, hp]
        rw [h4]
        simp
    · refine ⟨[prev], detectAux [] a rest, ?_, ?_⟩
      · simp [detectAux, hp]
      · simp [detectAux, hp]

/-- The groups concatenate back to the scanned list. -/
theorem detectAux_join (l : List AgentAssignment) :
    ∀ (cur : List AgentAssignment) (prev : AgentAssignment),
      (detectAux cur prev l).join = cur ++ prev :: l := by
  induction l with
  | nil => intro cur prev; simp [detectAux]
  | cons a rest ih =>
    intro cur prev
    by_cases hp : isParallelPair prev a <;> simp [detectAux, hp, ih]

/-- Every produced group is nonempty. -/
theorem detectAux_ne_nil (l : List AgentAssignment) :
    ∀ (cur : List AgentAssignment) (prev : AgentAssignment) (g : List AgentAssignment),
      g ∈ detectAux cur prev l → g ≠ [] := by
  induction l with
  | nil =>
    intro cur prev g hg
    simp [detectAux] at hg
    simp [hg]
  | cons a rest ih =>
    intro cur prev g hg
    by_cases hp : isParallelPair prev a
    · simp [detectAux, hp] at hg
      exact ih (cur ++ [prev]) a g hg
    · simp [detectAux, hp, List.mem_cons] at hg
      rcases hg with rfl | hg
      · simp
      · exact ih [] a g hg

theorem detectParallelism_join (agents : List AgentAssignment) :
    (detectParallelism agents).join = agents := by
  cases agents with
  | nil => rfl
  | cons a rest => simpa using detectAux_join rest [] a

theorem detectParallelism_ne_nil (agents : List AgentAssignment) :
    ∀ g ∈ detectParallelism agents, g ≠ [] := by
  cases agents with
  | nil => simp [detectParallelism]
  | cons a rest => exact fun g hg => detectAux_ne_nil rest [] a g hg

/-- The grouping recurrence: agent `a` joins the group of the adjacent
agent `b` exactly when `isParallelPair a b` holds. -/
theorem detectParallelism_cons_cons (a b : AgentAssignment) (l : List AgentAssignment) :
    ∃ g gs, detectParallelism (b :: l) = g :: gs ∧
      detectParallelism (a :: b :: l) =
        (if isParallelPair a b then (a :: g) :: gs else [a] :: g :: gs) := by
  obtain ⟨g, gs, h1, h2⟩ := detectAux_shift l [a] b
  refine ⟨g, gs, h1, ?_⟩
  by_cases hp : isParallelPair a b
  · simp [detectParallelism, detectAux, hp]
    simpa using h2
  · simp [detectParallelism, detectAux, hp, h1]

theorem buildSteps_eq_join :
    ∀ (groups : List (List AgentAssignment)) (prevNames : List String) (count : Nat),
      buildSteps groups prevNames count = (buildStepGroups groups prevNames count).join := by
  intro groups
  induction groups with
  | nil => intro prevNames count; rfl
  | cons g gs ih =>
    intro prevNames count
    simp only [buildSteps, buildStepGroups, ih, List.flatten_cons]

theorem buildGroupSteps_length (g : List AgentAssignment) :
    ∀ (prevNames : List String) (count : Nat),
      (buildGroupSteps g prevNames count).length = g.length := by
  induction g with
  | nil => intro prevNames count; rfl
  | cons a rest ih => intro prevNames count; simp [buildGroupSteps, ih]

theorem buildStepGroups_map_length :
    ∀ (groups : List (List AgentAssignment)) (prevNames : List String) (count : Nat),
      (buildStepGroups groups prevNames count).map List.length = groups.map List.length := by
  intro groups
  induction groups with
  | nil => intro prevNames count; rfl
  | cons g gs ih =>
    intro prevNames count
    simp [buildStepGroups, buildGroupSteps_length, ih]

/-- Every step of one group carries the group's shared dependency list:
absent when there is no prior group, the prior group's names otherwise. -/
theorem buildGroupSteps_depends (g : List AgentAssignment) :
    ∀ (prevNames : List String) (count : Nat),
      ∀ s ∈ buildGroupSteps g prevNames count,
        s.depends_on = if prevNames.isEmpty then none else some prevNames := by
  induction g with
  | nil => intro prevNames count s hs; simp [buildGroupSteps] at hs
  | cons a rest ih =>
    intro prevNames count s hs
    simp only [buildGroupSteps, List.mem_cons] at hs
    rcases hs with rfl | hs
    · rfl
    · exact ih prevNames (count + 1) s hs

/-- Consecutive step groups are chained: every step of a group depends on
exactly the names of the group before it. -/
theorem buildStepGroups_chain :
    ∀ (groups : List (List AgentAssignment)) (prevNames : List String) (count : Nat),
      (∀ g ∈ groups, g ≠ []) →
      List.Chain' (fun A B => ∀ s ∈ B, s.depends_on = some (A.map Step.name))
        (buildStepGroups groups prevNames count) := by
  intro groups
  induction groups with
  | nil => intro prevNames count _; simp [buildStepGroups]
  | cons g gs ih =>
    intro prevNames count hne
    rw [buildStepGroups, List.chain'_cons']
    constructor
    · intro B hB
      cases gs with
      | nil => simp [buildStepGroups] at hB
      | cons g' gs' =>
        simp only [buildStepGroups, List.head?_cons, Option.mem_def,
          Option.some.injEq] at hB
        intro s hs
        rw [← hB] at hs
        have hd := buildGroupSteps_depends g'
          ((buildGroupSteps g prevNames count).map Step.name)
          (count + (buildGroupSteps g prevNames count).length) s hs
        rw [hd]
        have hgne : g ≠ [] := hne g (by simp)
        have : ((buildGroupSteps g prevNames count).map Step.name).isEmpty = false := by
          rw [List.isEmpty_eq_false_iff_exists_mem]
          cases g with
          | nil => exact absurd rfl hgne
          | cons a rest =>
            exact ⟨(buildStep a (stepName a.name count) prevNames
              (contextRefs prevNames)).name, by simp [buildGroupSteps]⟩
        rw [this]
        simp
    · exact ih ((buildGroupSteps g prevNames count).map Step.name)
        (count + (buildGroupSteps g prevNames count).length)
        (fun g' hg' => hne g' (by simp [hg']))

/-- C5: `compile` groups agents into contiguous groups — two adjacent
agents share a group exactly when they have the same name or either
instruction contains a parallel marker (the grouping recurrence) — the
groups are nonempty and concatenate back to the agent list; and the
steps of the first group carry no dependency list, while every step of a
later group carries the same dependency list: the names of the steps of
the immediately preceding group. -/
theorem compile_parallel_groups (d : Decomposition) :
    ((detectParallelism d.agents).join = d.agents) ∧
    (∀ g ∈ detectParallelism d.agents, g ≠ []) ∧
    (∀ (a b : AgentAssignment) (l : List AgentAssignment),
      ∃ g gs, detectParallelism (b :: l) = g :: gs ∧
        detectParallelism (a :: b :: l) =
          (if isParallelPair a b then (a :: g) :: gs else [a] :: g :: gs)) ∧
    ((compile d).steps = (buildStepGroups (detectParallelism d.agents) [] 0).join) ∧
    ((buildStepGroups (detectParallelism d.agents) [] 0).map List.length =
      (detectParallelism d.agents).map List.length) ∧
    (∀ s ∈ (buildStepGroups (detectParallelism d.agents) [] 0).headD [],
      s.depends_on = none) ∧
    List.Chain' (fun A B => ∀ s ∈ B, s.depends_on = some (A.map Step.name))
      (buildStepGroups (detectParallelism d.agents) [] 0) := by
  refine ⟨detectParallelism_join d.agents, detectParallelism_ne_nil d.agents,
    detectParallelism_cons_cons, buildSteps_eq_join _ _ _,
    buildStepGroups_map_length _ _ _, ?_, buildStepGroups_chain _ _ _
      (detectParallelism_ne_nil d.agents)⟩
  intro s hs
  cases hgs : detectParallelism d.agents with
  | nil => rw [hgs] at hs; simp [buildStepGroups] at hs
  | cons g gs =>
    rw [hgs] at hs
    simp only [buildStepGroups, List.headD_cons] at hs
    have := buildGroupSteps_depends g [] 0 s hs
    simpa using this

/-- Spec-side (C10): the step names the compiler should produce — each
agent's slug suffixed with the running count of steps built so far. -/
def specStepNames (agents : List AgentAssignment) (n : Nat) : List String :=
  match agents with
  | [] => []
  | a :: rest => stepName a.name n :: specStepNames rest (n + 1)

theorem specStepNames_append (l₁ : List AgentAssignment) :
    ∀ (l₂ : List AgentAssignment) (n : Nat),
      specStepNames (l₁ ++ l₂) n = specStepNames l₁ n ++ specStepNames l₂ (n + l₁.length) := by
  induction l₁ with
  | nil => intro l₂ n; simp [specStepNames]
  | cons a rest ih =>
    intro l₂ n
    simp only [List.cons_append, specStepNames, List.append_eq, ih, List.length_cons]
    rw [show n + (rest.length + 1) = n + 1 + rest.length by omega]

theorem buildGroupSteps_names (g : List AgentAssignment) :
    ∀ (prevNames : List String) (count : Nat),
      (buildGroupSteps g prevNames count).map Step.name = specStepNames g count := by
  induction g with
  | nil => intro prevNames count; rfl
  | cons a rest ih =>
    intro prevNames count
    simp [buildGroupSteps, specStepNames, buildStep, ih]

theorem buildSteps_names :
    ∀ (groups : List (List AgentAssignment)) (prevNames : List String) (count : Nat),
      (buildSteps groups prevNames count).map Step.name =
        specStepNames groups.join count := by
  intro groups
  induction groups with
  | nil => intro prevNames count; rfl
  | cons g gs ih =>
    intro prevNames count
    simp only [buildSteps, List.map_append, buildGroupSteps_names, ih,
      List.flatten_cons, specStepNames_append, buildGroupSteps_length]

/-- Equal step names force equal step indices: the decimal suffix after
the last dash recovers the index. -/
theorem stepName_inj_index (x y : String) (i j : Nat) (h : stepName x i = stepName y j) :
    i = j := by
  have hd := congrArg String.data h
  simp only [stepName, String.data_append] at hd
  have hr := congrArg List.reverse hd
  simp only [List.reverse_append, List.reverse_cons, List.reverse_nil,
    List.nil_append, List.append_assoc, List.singleton_append] at hr
  have hsep := append_sep_inj ((natToStr i).data.reverse) ((natToStr j).data.reverse)
    _ _ (fun c hc => natDigits_no_dash i c (List.mem_reverse.mp hc))
    (fun c hc => natDigits_no_dash j c (List.mem_reverse.mp hc)) hr
  exact natDigits_injective (List.reverse_injective hsep.1)

theorem specStepNames_mem :
    ∀ (l : List AgentAssignment) (n : Nat) (s : String),
      s ∈ specStepNames l n → ∃ b k, n ≤ k ∧ s = stepName b k := by
  intro l
  induction l with
  | nil => intro n s hs; simp [specStepNames] at hs
  | cons a rest ih =>
    intro n s hs
    simp only [specStepNames, List.mem_cons] at hs
    rcases hs with rfl | hs
    · exact ⟨a.name, n, le_refl n, rfl⟩
    · obtain ⟨b, k, hk, hs⟩ := ih (n + 1) s hs
      exact ⟨b, k, by omega, hs⟩

theorem specStepNames_nodup (l : List AgentAssignment) :
    ∀ n : Nat, (specStepNames l n).Nodup := by
  induction l with
  | nil => intro n; simp [specStepNames]
  | cons a rest ih =>
    intro n
    rw [specStepNames, List.nodup_cons]
    refine ⟨fun hmem => ?_, ih (n + 1)⟩
    obtain ⟨b, k, hk, heq⟩ := specStepNames_mem rest (n + 1) _ hmem
    have := stepName_inj_index a.name b n k heq
    omega

/-- C10: the step names of a compiled recipe are the agents' slugs
suffixed with the strictly increasing running step count, and are
pairwise distinct — even for agents with identical names. -/
theorem step_names_distinct (d : Decomposition) :
    (compile d).steps.map Step.name = specStepNames d.agents 0 ∧
    ((compile d).steps.map Step.name).Nodup := by
  have h1 : (compile d).steps.map Step.name = specStepNames d.agents 0 := by
    show (buildSteps (detectParallelism d.agents) [] 0).map Step.name = _
    rw [buildSteps_names, detectParallelism_join]
  exact ⟨h1, h1 ▸ specStepNames_nodup d.agents 0⟩

/-- The grouped agent list used by the C5 witness. -/
def parallelWitnessDecomposition : Decomposition :=
  Decomposition.mk
    (IntentPrimitive.mk "g" [] [] [] [])
    (TriggerPrimitive.mk "user request" [] "auto")
    [AgentAssignment.mk "worker" "r" "x", AgentAssignment.mk "worker" "r" "y",
     AgentAssignment.mk "scribe" "r" "z"]
    (ContextRequirement.mk [] [] [])
    []
    ""
    0

/-- C5 witness: two same-named adjacent agents form one nonempty group. -/
theorem compile_parallel_groups_witness :
    ([AgentAssignment.mk "worker" "r" "x", AgentAssignment.mk "worker" "r" "y"] :
      List AgentAssignment) ≠ [] :=
  (compile_parallel_groups parallelWitnessDecomposition).2.1
    [AgentAssignment.mk "worker" "r" "x", AgentAssignment.mk "worker" "r" "y"]
    (by decide)

/-! ## Claim C6 — JSON extraction (corrected)

`re.search` matches at the *first* opening fence and the lazy group stops
at the *next* closing fence, so with several fenced blocks the first one
is taken; only a literal lowercase `json` hint is stripped; and without a
closed fence pair the stripped text is returned whole — there is no
first-`\x7b`-to-last-`\x7d` span location in the code. -/

/-- C6 counterexample: with two fenced blocks extraction takes the first
(the claim says the last); an uppercase hint is not stripped; and without
fences the whole text comes back rather than the brace span. -/
theorem extractJson_counterexample :
    extractJson "x ```\na``` y ```\nb``` z" = "a" ∧
    ("a" : String) ≠ "b" ∧
    extractJson "```PYTHON\nw\n```" = "PYTHON\nw" ∧
    ("PYTHON\nw" : String) ≠ "w" ∧
    extractJson "pre \x7b1\x7d post" = "pre \x7b1\x7d post" ∧
    ("pre \x7b1\x7d post" : String) ≠ "\x7b1\x7d" := by
  refine ⟨by decide, by decide, by decide, by decide, by decide, by decide⟩

theorem dropWhile_self_idem (P : Char → Bool) (l : List Char) :
    (l.dropWhile P).dropWhile P = l.dropWhile P := by
  induction l with
  | nil => rfl
  | cons c rest ih =>
    by_cases h : P c
    · simp [List.dropWhile_cons, h, ih]
    · simp [List.dropWhile_cons, h]

/-- Dropping a prefix cannot cross into a suffix whose first character
fails the predicate. -/
theorem dropWhile_append_keep (P : Char → Bool) (l₁ l₂ : List Char)
    (h : ∀ c, l₂.head? = some c → P c = false) :
    (l₁ ++ l₂).dropWhile P = l₁.dropWhile P ++ l₂ := by
  rw [List.dropWhile_append]
  by_cases he : (l₁.dropWhile P).isEmpty
  · rw [if_pos he]
    have h2 : l₂.dropWhile P = l₂ := by
      cases l₂ with
      | nil => rfl
      | cons c rest => rw [List.dropWhile_cons_of_neg (by simp [h c rfl])]
    have h1 : l₁.dropWhile P = [] := by simpa [List.isEmpty_iff] using he
    rw [h2, h1, List.nil_append]
  · rw [if_neg he]

theorem pyRStrip_append_keep (l₁ l₂ : List Char)
    (h : ∀ c, l₁.getLast? = some c → pyIsSpace c = false) :
    pyRStrip (l₁ ++ l₂) = l₁ ++ pyRStrip l₂ := by
  unfold pyRStrip
  rw [List.reverse_append,
    dropWhile_append_keep _ _ _ (by
      intro c hc
      rw [List.head?_reverse] at hc
      exact h c hc),
    List.reverse_append, List.reverse_reverse]

/-- The function `splitAtFence` finds the first fence: a backtick-free
prefix is returned verbatim. -/
theorem splitAtFence_first (pre : List Char) :
    ∀ (rest : List Char), (∀ c ∈ pre, c ≠ btick) →
      splitAtFence (pre ++ btick :: btick :: btick :: rest) = some (pre, rest) := by
  induction pre with
  | nil =>
    intro rest _
    rw [List.nil_append, splitAtFence]
    simp
  | cons c pre' ih =>
    intro rest hp
    rw [List.cons_append, splitAtFence]
    rw [if_neg (by
      intro hand
      exact hp c (by simp) hand.1)]
    rw [ih rest (fun e he => hp e (by simp [he]))]

/-- The capture group for a fenced block with a literal `json` hint: the
whitespace-stripped body, whatever prose precedes or follows and whatever
later fences exist. -/
theorem fenceGroup_shape (P B Q : List Char)
    (hp : ∀ c ∈ P, c ≠ btick) (hb : ∀ c ∈ B, c ≠ btick) :
    fenceGroup (P ++ btick :: btick :: btick ::
        ('j' :: 's' :: 'o' :: 'n' :: (B ++ btick :: btick :: btick :: Q)))
      = some (B.dropWhile pyIsSpace) := by
  have h1 := splitAtFence_first P
    ('j' :: 's' :: 'o' :: 'n' :: (B ++ btick :: btick :: btick :: Q)) hp
  have hb' : ∀ c ∈ B.dropWhile pyIsSpace, c ≠ btick :=
    fun c hc => hb c (List.dropWhile_subset _ hc)
  have h2 := splitAtFence_first (B.dropWhile pyIsSpace) Q hb'
  have h3 : ('j' :: 's' :: 'o' :: 'n' ::
      (B ++ btick :: btick :: btick :: Q)).dropWhile pyIsSpace =
      'j' :: 's' :: 'o' :: 'n' :: (B ++ btick :: btick :: btick :: Q) := by
    rw [List.dropWhile_cons_of_neg (by decide)]
  have h4 : (B ++ btick :: btick :: btick :: Q).dropWhile pyIsSpace =
      B.dropWhile pyIsSpace ++ btick :: btick :: btick :: Q :=
    dropWhile_append_keep _ _ _ (by
      intro c hc
      simp only [List.head?_cons, Option.some.injEq] at hc
      subst hc
      decide)
  rw [fenceGroup, h1]
  simp only [List.take, List.drop, if_true]
  rw [h4, h2]

/-- C6 (amended): extraction takes the *first* closed fenced block,
stripping only a literal lowercase `json` hint, tolerating arbitrary
backtick-free prose before the fence and arbitrary text (including more
fences) after the closing fence, and stripping surrounding whitespace
from the captured body; when the stripped text contains no closed fence
pair it is returned whole. -/
theorem extractJson_characterization (p b q t : String)
    (hp : ∀ c ∈ p.data, c ≠ btick) (hb : ∀ c ∈ b.data, c ≠ btick)
    (ht : fenceGroup (pyStrip t).data = none) :
    extractJson (p ++ "```json" ++ b ++ "```" ++ q) = pyStrip b ∧
    extractJson t = pyStrip t := by
  constructor
  · have hdata : (p ++ "```json" ++ b ++ "```" ++ q).data =
        p.data ++ (btick :: btick :: btick :: ('j' :: 's' :: 'o' :: 'n' ::
          (b.data ++ btick :: btick :: btick :: q.data))) := by
      rw [String.data_append, String.data_append, String.data_append,
        String.data_append]
      rw [show ("```json" : String).data =
        btick :: btick :: btick :: ['j', 's', 'o', 'n'] from rfl]
      rw [show ("```" : String).data = [btick, btick, btick] from rfl]
      simp only [List.append_assoc, List.cons_append, List.nil_append]
    have hL : pyLStrip (p ++ "```json" ++ b ++ "```" ++ q).data =
        p.data.dropWhile pyIsSpace ++ (btick :: btick :: btick ::
          ('j' :: 's' :: 'o' :: 'n' ::
            (b.data ++ btick :: btick :: btick :: q.data))) := by
      rw [hdata]
      exact dropWhile_append_keep _ _ _ (by
        intro c hc
        simp only [List.head?_cons, Option.some.injEq] at hc
        subst hc
        decide)
    have hre : p.data.dropWhile pyIsSpace ++ (btick :: btick :: btick ::
          ('j' :: 's' :: 'o' :: 'n' ::
            (b.data ++ btick :: btick :: btick :: q.data))) =
        (p.data.dropWhile pyIsSpace ++ btick :: btick :: btick ::
          ('j' :: 's' :: 'o' :: 'n' :: b.data) ++ [btick, btick, btick]) ++
          q.data := by
      simp only [List.append_assoc, List.cons_append, List.nil_append]
    have hR : pyRStrip ((p.data.dropWhile pyIsSpace ++ btick :: btick :: btick ::
          ('j' :: 's' :: 'o' :: 'n' :: b.data) ++ [btick, btick, btick]) ++
          q.data) =
        (p.data.dropWhile pyIsSpace ++ btick :: btick :: btick ::
          ('j' :: 's' :: 'o' :: 'n' :: b.data) ++ [btick, btick, btick]) ++
          pyRStrip q.data := by
      exact pyRStrip_append_keep _ _ (by
        intro c hc
        simp only [List.getLast?_append] at hc
        rw [show ([btick, btick, btick] : List Char).getLast? = some btick
          from rfl] at hc
        simp only [Option.or_some, Option.some.injEq] at hc
        subst hc
        decide)
    have hstrip : (pyStrip (p ++ "```json" ++ b ++ "```" ++ q)).data =
        p.data.dropWhile pyIsSpace ++ btick :: btick :: btick ::
          ('j' :: 's' :: 'o' :: 'n' ::
            (b.data ++ btick :: btick :: btick :: pyRStrip q.data)) := by
      show pyRStrip (pyLStrip (p ++ "```json" ++ b ++ "```" ++ q).data) = _
      rw [hL, hre, hR]
      simp only [List.append_assoc, List.cons_append, List.nil_append]
    have hfence := fenceGroup_shape (p.data.dropWhile pyIsSpace) b.data
      (pyRStrip q.data)
      (fun c hc => hp c (List.dropWhile_subset _ hc)) hb
    rw [extractJson]
    rw [hstrip, hfence]
    show pyStrip ⟨b.data.dropWhile pyIsSpace⟩ = pyStrip b
    show (⟨pyRStrip (pyLStrip (b.data.dropWhile pyIsSpace))⟩ : String) = _
    rw [show pyLStrip (b.data.dropWhile pyIsSpace) =
      b.data.dropWhile pyIsSpace from dropWhile_self_idem pyIsSpace b.data]
    rfl
  · rw [extractJson, ht]

/-- C6 witness: a hinted fenced block with prose on both sides extracts
to the stripped body, and fence-free text passes through. -/
theorem extractJson_characterization_witness :
    extractJson ("Here: " ++ "```json" ++ "\n1\n" ++ "```" ++ " done") =
      pyStrip "\n1\n" ∧
    extractJson "plain text" = pyStrip "plain text" :=
  ⟨(extractJson_characterization "Here: " "\n1\n" " done" "plain text"
      (by decide) (by decide) (by decide)).1,
   (extractJson_characterization "Here: " "\n1\n" " done" "plain text"
      (by decide) (by decide) (by decide)).2⟩

end IDD
